import Mathlib

/-!
Verification of the PE loader / dynamic-linker core in
`miasm2/jitter/loader/pe.py` (shallow embedding).

Python strings are embedded as `List Char` (the source runs under Python 2,
where `str` is a byte string and `isalnum` / `lower` act on ASCII, which is
what `Char.isAlphanum` / `Char.toLower` compute on ASCII characters).
Python dicts are embedded as association lists with insert-or-replace
update (`aset`); insertion order is preserved like a Python dict's.
Machine addresses and sizes are `Nat`.

The helpers `canon_libname_libfunc`, `lib_get_add_base` and
`lib_get_add_func` live in `miasm2/jitter/loader/utils.py`, which is not
among the provided sources; they are modelled from the spec (§4.3) and
marked as such in their doc comments.
-/

set_option maxHeartbeats 1000000
set_option maxRecDepth 100000

abbrev Str := List Char

/-- An export identifier: a Python `str` (import/export by name) or a Python
`int` (import/export by ordinal).  Matches the mixed-type dict keys the
source uses (`imp_ord_or_name` is either a string or an integer). -/
inductive Ident where
  | nm (s : Str)
  | ord (n : Nat)
  deriving DecidableEq, Repr

/-- Python dict lookup `d.get(k)` / `k in d`. -/
def alookup {α β : Type} [DecidableEq α] : List (α × β) → α → Option β
  | [], _ => none
  | (k, v) :: rest, a => if a = k then some v else alookup rest a

/-- Python dict update `d[k] = v`: replace in place if the key exists,
otherwise append (a Python dict keeps insertion order). -/
def aset {α β : Type} [DecidableEq α] : List (α × β) → α → β → List (α × β)
  | [], a, b => [(a, b)]
  | (k, v) :: rest, a, b => if a = k then (k, b) :: rest else (k, v) :: aset rest a b

/-- Reverse lookup with Python's last-writer-wins semantics:
`dict([(x[1], x[0]) for x in l.items()])[b]` keeps, for each value, the
*last* pair carrying it. -/
def alookupLast {α β : Type} [DecidableEq β] (l : List (α × β)) (b : β) : Option α :=
  (l.reverse.find? (fun p => decide (p.2 = b))).map (fun p => p.1)

/-- The NUL byte. -/
def nulChar : Char := Char.ofNat 0

/-- Characters the forwarder test accepts besides alphanumerics
(source line 65: `c in "_.-+*$@&#()[]={}"`). -/
def fwdSpecials : Str := "_.-+*$@&#()[]=\x7b\x7d".toList

/-- One byte of the forwarder test: `c.isalnum() or c in "_.-+*$@&#()[]={}"`. -/
def allowedChar (c : Char) : Bool :=
  c.isAlphanum || fwdSpecials.contains c

/-- The scanning loop of `is_redirected_export` (source lines 60-66):
walk up to `n` bytes from `ad`, stop at the first NUL, accumulate into
`out`, abort with `none` (Python `return False`) on a disallowed byte.
Exhausting the window without meeting a NUL is *not* a failure in the
source: the loop just ends and `out` keeps the whole window. -/
def scanFwd (virt : Nat → Char) : Nat → Nat → Str → Option Str
  | _, 0, out => some out
  | ad, n + 1, out =>
    let c := virt ad
    if c = nulChar then some out
    else if allowedChar c then scanFwd virt (ad + 1) n (out ++ [c])
    else none

/-- `is_redirected_export(e, ad)` (source lines 57-70).  Returns
`some (dllname, funcname)` — the Python truthy tuple — when the bytes at
`ad` look like a forwarder string, `none` for Python's `False`.
The split is at the *first* `.` (`out.find('.')`). -/
def is_redirected_export (virt : Nat → Char) (ad : Nat) : Option (Str × Str) :=
  match scanFwd virt ad 0x200 [] with
  | none => none
  | some out =>
    if out.contains '.' then
      some (out.takeWhile (fun c => c ≠ '.'), (out.dropWhile (fun c => c ≠ '.')).tail)
    else none

/-- The byte window the forwarder test actually examines, phrased the way
the spec describes it: up to `n` bytes from `ad`, cut at the first NUL. -/
def readWindow (virt : Nat → Char) : Nat → Nat → Str
  | _, 0 => []
  | ad, n + 1 =>
    let c := virt ad
    if c = nulChar then [] else c :: readWindow virt (ad + 1) n

/-! ## The export side: PE images, export tables, `libimp_pe` registry -/

/-- The export directory fields of a parsed PE that
`get_export_name_addr_list` reads (`e.DirExport`): the ordinal base
(`expdesc.base`), the name table, the name-ordinal table and the address
table (RVAs).  Out-of-range table indexing — an `IndexError` in the
source — is modelled with a default of `0`; the claims never exercise it. -/
structure ExpDesc where
  base : Nat
  f_names : List Str
  f_nameordinals : List Nat
  f_address : List Nat

/-- The slice of a parsed PE image that the export-ingestion code reads:
its declared base (`e.NThdr.ImageBase`), its export directory, and its
virtual address space (`e.virt`, one byte per address, used by the
forwarder test). -/
structure PEImg where
  imageBase : Nat
  expdesc : ExpDesc
  virt : Nat → Char

/-- `e.rva2virt(rva)` of the external parser: RVAs are offsets from the
image base. -/
def rva2virt (e : PEImg) (rva : Nat) : Nat := e.imageBase + rva

/-- `get_export_name_addr_list(e)` (source lines 73-89): one `(name, addr)`
pair per name-table entry, then one `(ordinal + base, addr)` pair per
name-ordinal entry. -/
def get_export_name_addr_list (e : PEImg) : List (Ident × Nat) :=
  ((List.range e.expdesc.f_names.length).map (fun i =>
    (Ident.nm (e.expdesc.f_names.getD i []),
     rva2virt e (e.expdesc.f_address.getD (e.expdesc.f_nameordinals.getD i 0) 0))))
  ++ (e.expdesc.f_nameordinals.map (fun o =>
    (Ident.ord (o + e.expdesc.base), rva2virt e (e.expdesc.f_address.getD o 0))))

/-- Python 2 `str.lower()` (ASCII). -/
def pyLower (s : Str) : Str := s.map Char.toLower

/-- The `'.dll'` suffix appended to a forwarder's target module name. -/
def dotDll : Str := ".dll".toList

/-- Rendering of an identifier inside a canonical name. -/
def identStr : Ident → Str
  | Ident.nm s => s
  | Ident.ord n => (toString n).toList

/-- Modelled from the spec: `canon_libname_libfunc` lives in
`miasm2/jitter/loader/utils.py`, which is not among the provided sources.
Spec §3 / §4.3 step 4: the canonical name is the `"library!symbol"`
string. -/
def canon_libname_libfunc (lib : Str) (f : Ident) : Str :=
  lib ++ [ '!' ] ++ identStr f

/-- The `libimp` registry state (class `libimp` of
`miasm2/jitter/loader/utils.py`, whose fields are documented in spec §3 and
manipulated directly by `libimp_pe.add_export_lib`).
`all_exported_lib` is the list of images that contributed exports. -/
structure Libimp where
  name2off : List (Str × Nat)
  libbase2lastad : List (Nat × Nat)
  lib_imp2ad : List (Nat × List (Ident × Nat))
  lib_imp2dstad : List (Nat × List (Ident × List Nat))
  libbase_ad : Nat
  fad2cname : List (Nat × Str)
  fad2info : List (Nat × (Nat × Ident))
  all_exported_lib : List PEImg

/-- Exceptions the embedded code can raise.  `keyError` stands for a Python
`KeyError` on a dict subscript, `indexError` for an out-of-range list
subscript, `nameError` for an unbound variable, `valueError` carries the
message of an explicit `raise ValueError(...)`. -/
inductive PyErr where
  | valueError (msg : Str)
  | keyError
  | indexError
  | nameError
  deriving DecidableEq, Repr

/-- Message of `raise ValueError('load %r first' % exp_dname)`
(source line 336). -/
def loadFirstMsg (dname : Str) : Str :=
  "load ".toList ++ dname ++ " first".toList

/-- Source lines 346-352: record one resolved export.
`lib_imp2ad[libad][imp] = ad`, then compute the canonical name through the
inverted `name2off` (`name_inv[libad]`, last-writer-wins) and store it in
`fad2cname[ad]` and `(libad, imp)` in `fad2info[ad]`.  `none` models the
`KeyError` raised when `libad` has no table or no registered name (the
partial state Python leaves behind when that exception fires is not
observable through the `Except` model, and the `add_export_lib` flow cannot
reach it: the library's name and table are installed just before). -/
def recordExport (r : Libimp) (libad : Nat) (imp : Ident) (ad : Nat) : Option Libimp :=
  match alookup r.lib_imp2ad libad with
  | none => none
  | some tbl =>
    match alookupLast r.name2off libad with
    | none => none
    | some libname =>
      some { r with
        lib_imp2ad := aset r.lib_imp2ad libad (aset tbl imp ad),
        fad2cname := aset r.fad2cname ad (canon_libname_libfunc libname imp),
        fad2info := aset r.fad2info ad (libad, imp) }

/-- The worklist loop of `add_export_lib` (source lines 315-352).

The Python list `todo` is popped from its *end* (`todo.pop()`) and a
deferred entry is pushed back at its *front* (`todo = [entry] + todo`);
here `todo` is kept reversed, so popping is taking the head and deferring
is appending at the end.  Recursion is on explicit fuel because a circular
same-library forwarder reference makes the source loop forever (spec §9);
`none` is returned exactly when the fuel runs out with work remaining. -/
def processExports (e : PEImg) (name : Str) (libad : Nat) :
    Nat → Libimp → List (Ident × Nat) → Option (Except PyErr Libimp)
  | _, r, [] => some (Except.ok r)
  | 0, _, _ :: _ => none
  | fuel + 1, r, (imp, ad0) :: rest =>
    match is_redirected_export e.virt ad0 with
    | none =>
      -- not a forwarder: the raw export address is recorded as-is
      match recordExport r libad imp ad0 with
      | none => some (Except.error PyErr.keyError)
      | some r2 => processExports e name libad fuel r2 rest
    | some (dn, fn) =>
      let dname := pyLower (dn ++ dotDll)
      if dname = name then
        match alookup r.name2off dname with
        | none => some (Except.error PyErr.keyError)
        | some libad_tmp =>
          match alookup r.lib_imp2ad libad_tmp with
          | none => some (Except.error PyErr.keyError)
          | some tbl =>
            match alookup tbl (Ident.nm fn) with
            | none =>
              -- target not resolved yet in this pass: requeue and continue
              processExports e name libad fuel r (rest ++ [(imp, ad0)])
            | some ad2 =>
              match recordExport r libad imp ad2 with
              | none => some (Except.error PyErr.keyError)
              | some r2 => processExports e name libad fuel r2 rest
      else if (alookup r.name2off dname).isNone then
        some (Except.error (PyErr.valueError (loadFirstMsg dname)))
      else
        match alookup r.name2off dname with
        | none => some (Except.error PyErr.keyError)
        | some libad_tmp =>
          match alookup r.lib_imp2ad libad_tmp with
          | none => some (Except.error PyErr.keyError)
          | some tbl =>
            match alookup tbl (Ident.nm fn) with
            | none => some (Except.error PyErr.keyError)
            | some ad2 =>
              match recordExport r libad imp ad2 with
              | none => some (Except.error PyErr.keyError)
              | some r2 => processExports e name libad fuel r2 rest

/-- `libimp_pe.add_export_lib(e, name)` (source lines 297-352).
The image is appended to `all_exported_lib` first; then, *only when the
name is not yet registered* (the whole remainder of the method body sits
inside the `else` branch of `if name in self.name2off`), the base is
assigned from the image's `ImageBase`, the per-base tables are
initialised, and the export worklist is processed. -/
def add_export_lib (r : Libimp) (e : PEImg) (name : Str) (fuel : Nat) :
    Option (Except PyErr Libimp) :=
  let r0 := { r with all_exported_lib := r.all_exported_lib ++ [e] }
  match alookup r0.name2off name with
  | some _ => some (Except.ok r0)
  | none =>
    let ad := e.imageBase
    let r1 := { r0 with
      name2off := aset r0.name2off name ad,
      libbase2lastad := aset r0.libbase2lastad ad (ad + 0x1),
      lib_imp2ad := aset r0.lib_imp2ad ad [],
      lib_imp2dstad := aset r0.lib_imp2dstad ad [],
      libbase_ad := r0.libbase_ad + 0x1000 }
    processExports e name ad fuel r1 (get_export_name_addr_list e).reverse

/-- The registry invariant of spec §3: every address stored as a value in a
per-library symbol table also appears as a key of `fad2cname` and of
`fad2info`. -/
def regInv (r : Libimp) : Prop :=
  ∀ b tbl i ad, alookup r.lib_imp2ad b = some tbl → alookup tbl i = some ad →
    (alookup r.fad2cname ad).isSome ∧ (alookup r.fad2info ad).isSome

/-! ## The import side: `get_import_address_pe` and `preload_pe` -/

/-- One entry of `e.DirImport.impdesc`: the DLL name, the first-thunk RVA
and the list of imported-by-name / imported-by-ordinal entries. -/
structure ImpDesc where
  dlldescname : Str
  firstthunk : Nat
  impbynames : List Ident

/-- The slice of a parsed PE image that the import-resolution code reads:
declared base, bitness (`e._wsize`, 32 or 64) and import descriptors
(`impdesc is None` is modelled as the empty list). -/
structure ImpPE where
  imageBase : Nat
  wsize : Nat
  impdesc : List ImpDesc

/-- `get_import_address_pe(e)` (source lines 20-36), flattened: the source
accumulates a `defaultdict(set)` keyed by `(libname, funcname)` and
`preload_pe` then iterates its items; here the same `(key, slot)` pairs are
produced as a list, and the `preload_pe` theorems below are proved for
*every* entry order, which covers the dict's iteration order.  The slot
address is `rva2virt(firstthunk + wsize*i/8)`. -/
def get_import_address_pe (e : ImpPE) : List ((Str × Ident) × Nat) :=
  e.impdesc.foldr (fun s acc =>
    (s.impbynames.enum.map (fun p =>
      ((pyLower s.dlldescname, p.2),
       e.imageBase + s.firstthunk + e.wsize * p.1 / 8))) ++ acc) []

/-- The emulated address space seen at word granularity: `mem ad` is the
pointer-sized word last patched at slot address `ad` (the byte-level
little-endian encoding `struct.pack(size2type[wsize], v)` is abstracted to
storing `v mod 2^wsize` at the slot address). -/
abbrev Mem := Nat → Nat

/-- State threaded by `preload_pe`: the accumulated `dyn_funcs` mapping,
the registry, and the address space. -/
structure PreSt where
  dyn : List (Str × Nat)
  reg : Libimp
  mem : Mem

/-- A base that no registered library currently has.  Spec §4.3 step 1
promises that a freshly assigned synthetic base is *unique* ("any unique
synthetic base is acceptable, canonically previousBase + 0x1000"); the
model takes the canonical counter, bumped past every base in `name2off` so
that uniqueness actually holds. -/
def freshBase (r : Libimp) : Nat :=
  max r.libbase_ad (((r.name2off.map Prod.snd).foldl max 0) + 0x1000)

/-- Modelled from the spec: `libimp.lib_get_add_base` (spec §4.3,
`baseFor`), source in `miasm2/jitter/loader/utils.py`, not among the
provided sources.  Returns the registered base, or lazily registers the
library at a fresh synthetic base, initialising its empty symbol and
patched-slot tables. -/
def lib_get_add_base (r : Libimp) (name : Str) : Nat × Libimp :=
  match alookup r.name2off name with
  | some ad => (ad, r)
  | none =>
    let ad := freshBase r
    (ad, { r with
      name2off := aset r.name2off name ad,
      libbase2lastad := aset r.libbase2lastad ad (ad + 0x1),
      lib_imp2ad := aset r.lib_imp2ad ad [],
      lib_imp2dstad := aset r.lib_imp2dstad ad [],
      libbase_ad := ad + 0x1000 })

/-- Modelled from the spec: `libimp.lib_get_add_func` (spec §4.3,
`addressFor`), source in `miasm2/jitter/loader/utils.py`, not among the
provided sources.  Returns the already-resolved address if present;
otherwise assigns the hint `dst_ad` as the resolved address and records it
in the symbol table, the patched-slot tracking table and the address-keyed
tables. -/
def lib_get_add_func (r : Libimp) (libad : Nat) (imp : Ident) (dst_ad : Nat) : Nat × Libimp :=
  let tbl := (alookup r.lib_imp2ad libad).getD []
  match alookup tbl imp with
  | some ad => (ad, r)
  | none =>
    let dsts := (alookup r.lib_imp2dstad libad).getD []
    let slots := (alookup dsts imp).getD []
    let cname := canon_libname_libfunc ((alookupLast r.name2off libad).getD []) imp
    (dst_ad, { r with
      lib_imp2ad := aset r.lib_imp2ad libad (aset tbl imp dst_ad),
      lib_imp2dstad := aset r.lib_imp2dstad libad
        (aset dsts imp (if dst_ad ∈ slots then slots else slots ++ [dst_ad])),
      fad2cname := aset r.fad2cname dst_ad cname,
      fad2info := aset r.fad2info dst_ad (libad, imp) })

/-- The body of `preload_pe`'s inner loop (source lines 44-52) for one
`((libname, libfunc), ad)` entry. -/
def preloadStep (wsize : Nat) (patch : Bool) (st : PreSt) (ent : (Str × Ident) × Nat) : PreSt :=
  let p1 := lib_get_add_base st.reg ent.1.1
  let p2 := lib_get_add_func p1.2 p1.1 ent.1.2 ent.2
  { dyn := aset st.dyn (canon_libname_libfunc ent.1.1 ent.1.2) p2.1,
    reg := p2.2,
    mem := if patch then (fun x => if x = ent.2 then p2.1 % 2 ^ wsize else st.mem x)
           else st.mem }

/-- `preload_pe`'s loop over all import entries. -/
def preload_run (wsize : Nat) (patch : Bool) (st : PreSt) (l : List ((Str × Ident) × Nat)) :
    PreSt :=
  l.foldl (preloadStep wsize patch) st

/-- `preload_pe(vm, e, runtime_lib, patch_vm_imp)` (source lines 39-53).
The Python function returns `dyn_funcs` and mutates the registry and the
address space in place; here all three are returned in a `PreSt`. -/
def preload_pe (vm : Mem) (e : ImpPE) (r : Libimp) (patch_vm_imp : Bool) : PreSt :=
  preload_run e.wsize patch_vm_imp ⟨[], r, vm⟩ (get_import_address_pe e)

/-- The address a `(lib, func)` import resolves to without side effects:
the lib's base via `name2off`, then the func's entry in that base's symbol
table. -/
def resolvedIn (r : Libimp) (lib : Str) (f : Ident) : Option Nat :=
  match alookup r.name2off lib with
  | none => none
  | some b => alookup ((alookup r.lib_imp2ad b).getD []) f

/-- The value one `preload_pe` entry records and patches: the registry's
resolved address if the import is known, otherwise the slot address used as
the creation hint. -/
def stepVal (r : Libimp) (ent : (Str × Ident) × Nat) : Nat :=
  (resolvedIn r ent.1.1 ent.1.2).getD ent.2

/-- `dyn_funcs` as computed against one fixed registry. -/
def pureD (r : Libimp) (d : List (Str × Nat)) (l : List ((Str × Ident) × Nat)) :
    List (Str × Nat) :=
  l.foldl (fun d ent => aset d (canon_libname_libfunc ent.1.1 ent.1.2) (stepVal r ent)) d

/-- The patches `preload_pe` writes, as computed against one fixed
registry. -/
def pureM (wsize : Nat) (patch : Bool) (r : Libimp) (m : Mem)
    (l : List ((Str × Ident) × Nat)) : Mem :=
  l.foldl (fun m ent =>
    if patch then (fun x => if x = ent.2 then stepVal r ent % 2 ^ wsize else m x) else m) m

/-! ## The layout mapper: `vm_load_pe` -/

/-- One PE section as the mapper sees it (mutable metadata plus content). -/
structure PESection where
  addr : Nat
  size : Nat
  rawsize : Nat
  offset : Nat
  data : Str

/-- The slice of a parsed PE that `vm_load_pe` reads: image base,
`NThdr.sizeofheaders`, the raw file bytes and the section list.
Python's signed ints can make the recomputed inter-section sizes negative
when section addresses are not ascending; sizes here are `Nat` with
truncated subtraction, and the concrete inputs used below keep addresses
ascending so both agree. -/
structure PEFile where
  imageBase : Nat
  sizeofheaders : Nat
  content : Str
  shlist : List PESection

/-- The virtual memory manager's page list, in creation order
(`vm.add_memory_page`; all pages here are read+write). -/
structure VM where
  pages : List (Nat × Str)

def addPage (vm : VM) (ad : Nat) (data : Str) : VM := ⟨vm.pages ++ [(ad, data)]⟩

def dfltSection : PESection := ⟨0, 0, 0, 0, []⟩

/-- The header page bytes (source lines 119-124):
`content[:max(0x200, sizeofheaders)]` padded with
`max(0, min(SHList[0].addr, 0x1000) - max(0x200, sizeofheaders))` NULs.
Note the slice does *not* pad when `content` is shorter than the header
length. -/
def headerBytes (content : Str) (sizeofheaders : Nat) (firstAddr : Nat) : Str :=
  let hdr_len := max 0x200 sizeofheaders
  let min_len := min firstAddr 0x1000
  content.take hdr_len ++ List.replicate (min_len - hdr_len) nulChar

/-- The `align_s` size rewrite (source lines 129-140): every section but
the last takes the gap to the next section as its size (truncating its
data), the last section's size is rounded up to a page boundary. -/
def alignSecs : List PESection → List PESection
  | [] => []
  | [last] => [{ last with size := (last.size + 0xfff) &&& 0xfffff000 }]
  | sec :: next :: rest =>
    { sec with size := next.addr - sec.addr, rawsize := next.addr - sec.addr,
               data := sec.data.take (next.addr - sec.addr), offset := sec.addr }
      :: alignSecs (next :: rest)

/-- Zero-pad section data to its size (source lines 144-145); if the data
is already longer nothing is appended, as in the source. -/
def padTo (data : Str) (size : Nat) : Str :=
  data ++ List.replicate (size - data.length) nulChar

/-- The non-aligned path's size normalisation (source lines 157-162):
all but the last section get the gap to the next section as size, and all
sections get `rawsize := size` and `offset := addr`. -/
def naAdjust : List PESection → List PESection
  | [] => []
  | [last] => [{ last with rawsize := last.size, offset := last.addr }]
  | sec :: next :: rest =>
    { sec with size := next.addr - sec.addr, rawsize := next.addr - sec.addr,
               offset := sec.addr }
      :: naAdjust (next :: rest)

/-- The non-aligned path's min/max scan (source lines 153-168), including
its quirk: the max *test* uses `addr + size` but the stored value is
`addr + max(size, len(data))`. -/
def naMinMax (load_hdr : Bool) (secs : List PESection) : Option Nat × Option Nat :=
  secs.foldl (fun mm sec =>
    ((match mm.1 with
      | none => some sec.addr
      | some m => some (min m sec.addr)),
     (match mm.2 with
      | none => some (sec.addr + max sec.size sec.data.length)
      | some m =>
        if m < sec.addr + sec.size then some (sec.addr + max sec.size sec.data.length)
        else some m)))
    ((if load_hdr then some 0 else none), none)

/-- `vm_load_pe(vm, fdata, align_s, load_hdr)` (source lines 93-185), after
the external parse.  The `Except.error` outcomes are the exceptions the
source raises: `indexError` for `pe.SHList[0]` / `pe.SHList[-1]` on an
empty section list, and `nameError` on the non-aligned path: its copy loop
(source lines 181-183) iterates binding `section` but reads `s.data` and
`s.addr`, and no variable `s` is in scope in `vm_load_pe`, so the first
iteration raises `NameError` — and the non-aligned path always has at
least one section (an empty list is vacuously aligned), so the loop always
runs.  The big page allocated just before the loop survives in the
returned `VM`.  On the non-aligned path the source would also raise
`TypeError` (`rva2virt(None)`) if the section list were empty; that branch
is unreachable, and `getD 0` stands in for it. -/
def vm_load_pe (vm : VM) (pe : PEFile) (align_s load_hdr : Bool) : VM × Except PyErr PEFile :=
  let aligned := pe.shlist.all (fun sec => sec.addr &&& 0xFFF == 0)
  if aligned then
    if load_hdr && pe.shlist.isEmpty then
      (vm, Except.error PyErr.indexError)
    else
      let vm1 := if load_hdr then
          addPage vm pe.imageBase
            (headerBytes pe.content pe.sizeofheaders ((pe.shlist.headD dfltSection).addr))
        else vm
      if align_s && pe.shlist.isEmpty then
        (vm1, Except.error PyErr.indexError)
      else
        let secs := if align_s then alignSecs pe.shlist else pe.shlist
        let vm2 := secs.foldl
          (fun v sec => addPage v (pe.imageBase + sec.addr) (padTo sec.data sec.size)) vm1
        (vm2, Except.ok { pe with shlist := secs })
  else
    let secs := naAdjust pe.shlist
    let mm := naMinMax load_hdr secs
    let minv := pe.imageBase + (mm.1.getD 0)
    let maxv := pe.imageBase + (mm.2.getD 0)
    let vm1 := addPage vm minv (List.replicate (maxv - minv) nulChar)
    (vm1, Except.error PyErr.nameError)

/-! ## The reconstructor's import grouping: `gen_new_lib` -/

/-- Ascending insertion sort standing in for Python's `list.sort()`; the
address lists sorted below have pairwise distinct elements, for which every
ascending sort agrees. -/
def insertSorted (x : Nat) : List Nat → List Nat
  | [] => [x]
  | y :: rest => if x ≤ y then x :: y :: rest else y :: insertSorted x rest

def pySort (l : List Nat) : List Nat := l.foldr insertSorted []

/-- Source lines 377-380: `i` ends at the first non-null index (addresses
here are `Nat`, so Python's `None` cannot occur), or — when every element
is null — at the *last* index, so a fully-null list keeps its final
element. -/
def skipLeadingNulls (l : List Nat) : List Nat :=
  match l.findIdx? (fun x => decide (x ≠ 0)) with
  | some i => l.drop i
  | none => l.drop (l.length - 1)

/-- Source lines 385-388: the length `i + 1` of the leading run of
addresses each exactly `4` apart — the stride is the literal `4`
regardless of the image's pointer width. -/
def runLen : List Nat → Nat
  | [] => 0
  | [_] => 1
  | a :: b :: rest => if a + 4 = b then runLen (b :: rest) + 1 else 1

/-- The blocks the `while all_ads:` loop (source lines 382-403) carves out:
repeatedly split off the leading run.  The loop consumes at least one
element per iteration (`runLen` of a nonempty list is at least 1), so
structural recursion on a fuel of `l.length` computes the fixpoint; see
`iatBlocksF_fuel` below. -/
def iatBlocksF : Nat → List Nat → List (List Nat)
  | 0, _ => []
  | _, [] => []
  | fuel + 1, a :: rest =>
    ((a :: rest).take (runLen (a :: rest)))
      :: iatBlocksF fuel ((a :: rest).drop (runLen (a :: rest)))

def iatBlocks (l : List Nat) : List (List Nat) := iatBlocksF l.length l

/-- The run length the claim describes: maximal runs of addresses exactly
`pointerWidth` apart (spec §4.4 step 4 reads "each exactly `pointerWidth`
apart").  Written from the claim's words for comparison with the source's
`runLen`, which hard-codes a stride of 4. -/
def runLenSpec (w : Nat) : List Nat → Nat
  | [] => 0
  | [_] => 1
  | a :: b :: rest => if a + w = b then runLenSpec w (b :: rest) + 1 else 1

/-- The grouping the claim describes, with a parametric pointer width;
compare `iatBlocksF` / `iatBlocks`. -/
def iatRunsSpecF (w : Nat) : Nat → List Nat → List (List Nat)
  | 0, _ => []
  | _, [] => []
  | fuel + 1, a :: rest =>
    ((a :: rest).take (runLenSpec w (a :: rest)))
      :: iatRunsSpecF w fuel ((a :: rest).drop (runLenSpec w (a :: rest)))

def iatRunsSpec (w : Nat) (l : List Nat) : List (List Nat) := iatRunsSpecF w l.length l

/-- Source lines 365-367: the `addr -> func_name` map collected from one
library's patched-slot table; later symbols overwrite shared addresses. -/
def outAdsOf (dsts : List (Ident × List Nat)) : List (Nat × Ident) :=
  dsts.foldl (fun out p => p.2.foldl (fun out addr => aset out addr p.1) out) []

/-- `libimp_pe.gen_new_lib(target_pe, filter)` (source lines 354-405).
`virt2rva` is `target_pe.virt2rva`, returning `none` for the
`pe.InvalidOffset` exception (the descriptor candidate is then skipped).
A registered base always has a `lib_imp2dstad` entry (both are installed
together), so the `getD []` stands in for an unreachable `KeyError`.
Each emitted descriptor is `((lib_name, firstthunk_rva), funcs)`. -/
def gen_new_lib (r : Libimp) (virt2rva : Nat → Option Nat) (filt : Nat → Bool) :
    List ((Str × Nat) × List Ident) :=
  r.name2off.foldl (fun new_lib p =>
    let out_ads := outAdsOf ((alookup r.lib_imp2dstad p.2).getD [])
    let all_ads0 := (out_ads.map Prod.fst).filter filt
    if all_ads0.isEmpty then new_lib
    else
      let ads := skipLeadingNulls (pySort all_ads0)
      (iatBlocks ads).foldl (fun acc block =>
        match virt2rva (block.headD 0) with
        | none => acc
        | some rva =>
          acc ++ [((p.1, rva), block.map (fun a => (alookup out_ads a).getD (Ident.nm [])))])
        new_lib)
    []

/-- A block of addresses each exactly 4 apart. -/
def IsRun4 (l : List Nat) : Prop := l.Chain' (fun a b => a + 4 = b)

instance {e a : Type} [DecidableEq e] [DecidableEq a] : DecidableEq (Except e a) := fun x y =>
  match x, y with
  | Except.ok u, Except.ok v =>
    if h : u = v then Decidable.isTrue (by rw [h])
    else Decidable.isFalse (by intro hh; injection hh; contradiction)
  | Except.error u, Except.error v =>
    if h : u = v then Decidable.isTrue (by rw [h])
    else Decidable.isFalse (by intro hh; injection hh; contradiction)
  | Except.ok _, Except.error _ => Decidable.isFalse (fun hh => Except.noConfusion hh)
  | Except.error _, Except.ok _ => Decidable.isFalse (fun hh => Except.noConfusion hh)

/-! ## Concrete fixtures used by witnesses and counterexamples -/

/-- An empty registry. -/
def emptyLibimp : Libimp := ⟨[], [], [], [], 0, [], [], []⟩

/-- A memory whose bytes are printable forever: a `'.'` then `'a'`s, with
no NUL anywhere in (or after) the 512-byte window. -/
def c1virt : Nat → Char := fun n => if n = 0 then '.' else 'a'

/-- An image whose single export `f` (ordinal base 1) has its address table
entry at RVA 0x100, i.e. virtual address 0x400100, where the bytes spell
the forwarder string `"bar.f"`. -/
def c4virt : Nat → Char := fun n => "bar.f".toList.getD (n - 0x400100) nulChar

def c4e : PEImg :=
  ⟨0x400000, ⟨1, ["f".toList], [0], [0x100]⟩, c4virt⟩

def c4name : Str := "foo.dll".toList

/-- A registry in which `foo.dll` is registered at base 0x400000 with the
export `f` (and its ordinal alias) resolved to 0x400100 — the state after a
first ingestion of a one-export library. -/
def c3r1 : Libimp :=
  ⟨[(c4name, 0x400000)], [(0x400000, 0x400001)],
   [(0x400000, [(Ident.ord 1, 0x400100), (Ident.nm ("f".toList), 0x400100)])],
   [(0x400000, [])], 0x1000,
   [(0x400100, canon_libname_libfunc c4name (Ident.nm ("f".toList)))],
   [(0x400100, (0x400000, Ident.nm ("f".toList)))], []⟩

/-- A second image under the same library name, exporting a *different*
symbol `g` at virtual address 0x400200; its memory holds no forwarder
strings. -/
def c3e2 : PEImg :=
  ⟨0x400000, ⟨1, ["g".toList], [0], [0x200]⟩, fun _ => nulChar⟩

def c3g : Str := "g".toList

def c3f : Str := "f".toList

/-- Memory for the same-library forwarder scenario: address 0 spells the
forwarder string `"foo.b"`, address 100 holds a NUL (a direct address). -/
def c2virt : Nat → Char := fun n => "foo.b".toList.getD n nulChar

def c2e : PEImg := ⟨0x400000, ⟨0, [], [], []⟩, c2virt⟩

/-- A registry in which `foo.dll` is freshly registered at base 0x400000
with an empty symbol table — the state `add_export_lib` sets up right
before processing the worklist. -/
def c2reg : Libimp :=
  ⟨[(c4name, 0x400000)], [(0x400000, 0x400001)], [(0x400000, [])],
   [(0x400000, [])], 0x1000, [], [], []⟩

/-- Projection used to state the C2 results without comparing whole
registry states: the resolved address of identifier `i` for base `libad`. -/
def resolvedAt (libad : Nat) (i : Ident) (res : Option (Except PyErr Libimp)) :
    Option (Except PyErr (Option Nat)) :=
  res.map (Except.map (fun r2 => alookup ((alookup r2.lib_imp2ad libad).getD []) i))

/-- An image with an empty export table, used to witness C9. -/
def c9e : PEImg := ⟨0x500000, ⟨0, [], [], []⟩, fun _ => nulChar⟩

def c9name : Str := "base.dll".toList

/-- The registry produced by ingesting `c9e` into an empty registry. -/
def c9res : Libimp :=
  ⟨[(c9name, 0x500000)], [(0x500000, 0x500001)], [(0x500000, [])],
   [(0x500000, [])], 0x1000, [], [], [c9e]⟩

/-- Registry fixture for C6's claimed example: one library `foo.dll` whose
patched slot addresses are 0x1000, 0x1004, 0x1008 and 0x2000 (pointer
width 4). -/
def c6r4 : Libimp :=
  ⟨[(c4name, 0x400000)], [], [],
   [(0x400000,
     [(Ident.nm ("f1".toList), [0x1000]), (Ident.nm ("f2".toList), [0x1004]),
      (Ident.nm ("f3".toList), [0x1008]), (Ident.nm ("f4".toList), [0x2000])])],
   0, [], [], []⟩

/-- Registry fixture for C6's counterexample: one library whose two patched
slots are 8 bytes apart, as on a 64-bit image. -/
def c6r8 : Libimp :=
  ⟨[(c4name, 0x400000)], [], [],
   [(0x400000,
     [(Ident.nm ("f1".toList), [0x1000]), (Ident.nm ("f2".toList), [0x1008])])],
   0, [], [], []⟩

/-! # Theorems -/

theorem alookup_cons {α β : Type} [DecidableEq α] (k : α) (v : β) (rest : List (α × β)) (a : α) :
    alookup ((k, v) :: rest) a = if a = k then some v else alookup rest a := rfl

theorem alookup_aset {α β : Type} [DecidableEq α] (l : List (α × β)) (k : α) (v : β) (a : α) :
    alookup (aset l k v) a = if a = k then some v else alookup l a := by
  induction l with
  | nil => by_cases h : a = k <;> simp [aset, alookup, h]
  | cons p rest ih =>
    obtain ⟨k', v'⟩ := p
    by_cases hk : k = k'
    · subst hk
      by_cases h : a = k <;> simp [aset, alookup, h]
    · by_cases h : a = k'
      · subst h
        simp [aset, hk, alookup, Ne.symm hk]
      · simp [aset, hk, alookup, h, ih]

theorem alookup_aset_self {α β : Type} [DecidableEq α] (l : List (α × β)) (k : α) (v : β) :
    alookup (aset l k v) k = some v := by
  simp [alookup_aset]

theorem alookup_aset_ne {α β : Type} [DecidableEq α] (l : List (α × β)) (k : α) (v : β)
    (a : α) (h : a ≠ k) : alookup (aset l k v) a = alookup l a := by
  simp [alookup_aset, h]

/-- A key present before an update is still present after it. -/
theorem alookup_aset_isSome {α β : Type} [DecidableEq α] (l : List (α × β)) (k : α) (v : β)
    (a : α) (h : (alookup l a).isSome) : (alookup (aset l k v) a).isSome := by
  by_cases hk : a = k
  · subst hk; simp [alookup_aset_self]
  · simpa [alookup_aset_ne l k v a hk] using h

/-- Membership of a looked-up pair. -/
theorem alookup_mem {α β : Type} [DecidableEq α] (l : List (α × β)) (a : α) (b : β)
    (h : alookup l a = some b) : (a, b) ∈ l := by
  induction l with
  | nil => simp [alookup] at h
  | cons p rest ih =>
    obtain ⟨k, v⟩ := p
    by_cases hk : a = k
    · subst hk
      simp [alookup] at h
      simp [h]
    · simp [alookup, hk] at h
      exact List.mem_cons_of_mem _ (ih h)

theorem scanFwd_eq_readWindow (virt : Nat → Char) :
    ∀ (n ad : Nat) (out : Str),
      scanFwd virt ad n out =
        if (readWindow virt ad n).all allowedChar then some (out ++ readWindow virt ad n)
        else none := by
  intro n
  induction n with
  | zero => intro ad out; simp [scanFwd, readWindow]
  | succ n ih =>
    intro ad out
    by_cases hnul : virt ad = nulChar
    · simp [scanFwd, readWindow, hnul]
    · by_cases hall : allowedChar (virt ad)
      · simp only [scanFwd, readWindow, if_neg hnul, if_pos hall, ih (ad + 1) (out ++ [virt ad])]
        by_cases h2 : (readWindow virt (ad + 1) n).all allowedChar
        · simp [h2, hall, List.all_cons]
        · simp [h2, hall, List.all_cons]
      · simp [scanFwd, readWindow, hnul, hall, List.all_cons]

/-! ## C1: the forwarder classification -/

/-- C1 (counterexample): the claim requires a NUL terminator within the
512-byte window for a candidate to be classified as a forwarder.  On a
memory with no NUL at all in the window — 512 printable bytes containing a
`'.'` — the code still classifies the candidate as a forwarder: the scan
loop simply runs off the end of the window and keeps the accumulated
string. -/
theorem claim_C1_counterexample :
    (is_redirected_export c1virt 0).isSome = true ∧
      ∀ i, i < 0x200 → c1virt i ≠ nulChar := by
  constructor
  · decide
  · decide

/-- C1 (amended): the candidate is a forwarder iff every byte of the
window read (up to 512 bytes, cut at the first NUL — a NUL need *not*
occur) is alphanumeric or one of `_.-+*$@&#()[]={}`, and the window read
contains at least one `'.'`; otherwise (non-printable byte or no `'.'`)
it is not a forwarder — `none`, never an error. -/
theorem claim_C1_forwarder_charact (virt : Nat → Char) (ad : Nat) :
    (is_redirected_export virt ad).isSome = true ↔
      ((readWindow virt ad 0x200).all allowedChar = true ∧
        (readWindow virt ad 0x200).contains '.' = true) := by
  unfold is_redirected_export
  rw [scanFwd_eq_readWindow]
  by_cases hall : (readWindow virt ad 0x200).all allowedChar
  · by_cases hdot : (readWindow virt ad 0x200).contains '.'
    · simp [hall, hdot]
    · simp [hall, hdot]
  · simp [hall]

/-! ## C3: re-ingestion under an already-registered name -/

/-- C3 (counterexample): with `foo.dll` already registered (symbol `f`
resolved), re-ingesting a second image that exports a new symbol `g` does
*not* process that image's exports: `g` stays unresolved and the old
resolution of `f` is untouched, because the whole export walk sits inside
the `else` branch of `if name in self.name2off`.  The claim's "exports are
still processed against the existing base" is false. -/
theorem claim_C3_counterexample :
    (add_export_lib c3r1 c3e2 c4name 9).map
        (Except.map (fun r2 =>
          (alookup ((alookup r2.lib_imp2ad 0x400000).getD []) (Ident.nm c3g),
           alookup ((alookup r2.lib_imp2ad 0x400000).getD []) (Ident.nm c3f))))
      = some (Except.ok (none, some 0x400100)) := by
  decide

/-- C3 (amended): calling `add_export_lib` again under an already-registered
library name keeps the originally assigned base unchanged and performs *no*
export processing at all: apart from appending the image to
`all_exported_lib`, the registry is returned unchanged (prior resolutions
kept, the new image's exports ignored). -/
theorem claim_C3_reingest_noop (r : Libimp) (e : PEImg) (name : Str) (fuel : Nat) (b : Nat)
    (h : alookup r.name2off name = some b) :
    add_export_lib r e name fuel =
      some (Except.ok { r with all_exported_lib := r.all_exported_lib ++ [e] }) := by
  unfold add_export_lib
  simp [h]

/-- Witness for `claim_C3_reingest_noop` at a concrete registry. -/
theorem claim_C3_reingest_noop_witness :
    add_export_lib c3r1 c3e2 c4name 5 =
      some (Except.ok { c3r1 with all_exported_lib := c3r1.all_exported_lib ++ [c3e2] }) :=
  claim_C3_reingest_noop c3r1 c3e2 c4name 5 0x400000 (by decide)

/-! ## C4: forwarder target library not loaded -/

/-- C4: when the entry processed first from the export worklist is a
forwarder whose target module (with `.dll` appended and lower-cased) is
neither the library being ingested nor registered, `add_export_lib` raises
`ValueError('load ... first')` to the caller; nothing is skipped and no
transitive loading happens. -/
theorem claim_C4_missing_dependency (e : PEImg) (name : Str) (fuel : Nat) (r : Libimp)
    (imp : Ident) (ad0 : Nat) (front : List (Ident × Nat)) (dn fn : Str)
    (hnew : alookup r.name2off name = none)
    (hlist : get_export_name_addr_list e = front ++ [(imp, ad0)])
    (hfwd : is_redirected_export e.virt ad0 = some (dn, fn))
    (hne : pyLower (dn ++ dotDll) ≠ name)
    (hreg : alookup r.name2off (pyLower (dn ++ dotDll)) = none) :
    add_export_lib r e name (fuel + 1) =
      some (Except.error (PyErr.valueError (loadFirstMsg (pyLower (dn ++ dotDll))))) := by
  unfold add_export_lib
  simp only [hnew]
  rw [hlist]
  simp only [List.reverse_append, List.reverse_cons, List.reverse_nil, List.nil_append,
    List.singleton_append]
  simp only [processExports, hfwd]
  rw [if_neg hne]
  rw [alookup_aset_ne _ _ _ _ hne, hreg]
  simp

/-- Witness for `claim_C4_missing_dependency`: ingesting `c4e` (whose
export forwards to `bar.f`) into an empty registry under the name
`foo.dll` fails with `load bar.dll first`. -/
theorem claim_C4_missing_dependency_witness :
    add_export_lib emptyLibimp c4e c4name (2 + 1) =
      some (Except.error (PyErr.valueError
        (loadFirstMsg (pyLower ("bar".toList ++ dotDll))))) :=
  claim_C4_missing_dependency c4e c4name 2 emptyLibimp (Ident.ord 1) 0x400100
    [(Ident.nm ("f".toList), 0x400100)] ("bar".toList) ("f".toList)
    (by decide) (by decide) (by decide) (by decide) (by decide)

/-! ## C2: same-library forward reference, worklist-order independence -/

/-- Core of the same-library forwarder scenario: a worklist holding the
direct entry `b` (processed first) and then the forwarder entry `a`
resolves `a` to `b`'s recorded address. -/
theorem run_direct_then_fwd (e : PEImg) (name : Str) (libad fuel : Nat) (r : Libimp)
    (aN bN dn : Str) (adA adB : Nat) (tbl0 : List (Ident × Nat))
    (hfwd : is_redirected_export e.virt adA = some (dn, bN))
    (hdn : pyLower (dn ++ dotDll) = name)
    (hdir : is_redirected_export e.virt adB = none)
    (hname : alookup r.name2off name = some libad)
    (hrev : alookupLast r.name2off libad = some name)
    (htbl : alookup r.lib_imp2ad libad = some tbl0) :
    resolvedAt libad (Ident.nm aN)
        (processExports e name libad (fuel + 2) r [(Ident.nm bN, adB), (Ident.nm aN, adA)])
      = some (Except.ok (some adB)) := by
  show resolvedAt libad (Ident.nm aN)
      (processExports e name libad (fuel + 1 + 1) r [(Ident.nm bN, adB), (Ident.nm aN, adA)])
    = some (Except.ok (some adB))
  simp only [processExports, hdir, recordExport, htbl, hrev]
  simp only [processExports, hfwd, hdn, if_pos rfl, hname, alookup_aset_self]
  simp [processExports, resolvedAt, Except.map, alookup_aset_self, hrev]

/-- C2: in a freshly initialised ingestion pass for library `name` at base
`libad`, a worklist carrying a forwarder entry `a` (whose string names
symbol `b` of the same library) and a direct entry `b` resolves `a` to
`b`'s resolved address in *either* worklist order: when `a` is processed
first and `b` is not yet resolved, the entry is requeued (deferred, not an
error) and retried after `b`. -/
theorem claim_C2_same_lib_forward (e : PEImg) (name : Str) (libad fuel : Nat) (r : Libimp)
    (aN bN dn : Str) (adA adB : Nat) (tbl0 : List (Ident × Nat))
    (hfwd : is_redirected_export e.virt adA = some (dn, bN))
    (hdn : pyLower (dn ++ dotDll) = name)
    (hdir : is_redirected_export e.virt adB = none)
    (hname : alookup r.name2off name = some libad)
    (hrev : alookupLast r.name2off libad = some name)
    (htbl : alookup r.lib_imp2ad libad = some tbl0)
    (hb0 : alookup tbl0 (Ident.nm bN) = none) :
    resolvedAt libad (Ident.nm aN)
        (processExports e name libad (fuel + 3) r [(Ident.nm bN, adB), (Ident.nm aN, adA)])
      = some (Except.ok (some adB))
    ∧ resolvedAt libad (Ident.nm aN)
        (processExports e name libad (fuel + 3) r [(Ident.nm aN, adA), (Ident.nm bN, adB)])
      = some (Except.ok (some adB)) := by
  constructor
  · exact run_direct_then_fwd e name libad (fuel + 1) r aN bN dn adA adB tbl0
      hfwd hdn hdir hname hrev htbl
  · have step : processExports e name libad (fuel + 2 + 1) r
        [(Ident.nm aN, adA), (Ident.nm bN, adB)]
        = processExports e name libad (fuel + 2) r
            [(Ident.nm bN, adB), (Ident.nm aN, adA)] := by
      simp only [processExports, hfwd, hdn, if_pos rfl, hname, htbl, hb0]
      rfl
    rw [show fuel + 3 = fuel + 2 + 1 from rfl, step]
    exact run_direct_then_fwd e name libad fuel r aN bN dn adA adB tbl0
      hfwd hdn hdir hname hrev htbl

/-- Witness for `claim_C2_same_lib_forward` on a concrete image: the
forwarder string `"foo.b"` at address 0 under library `foo.dll`, the
direct entry `b` at address 100; both worklist orders yield `a ↦ 100`. -/
theorem claim_C2_same_lib_forward_witness :
    resolvedAt 0x400000 (Ident.nm ("a".toList))
        (processExports c2e c4name 0x400000 3 c2reg
          [(Ident.nm ("b".toList), 100), (Ident.nm ("a".toList), 0)])
      = some (Except.ok (some 100))
    ∧ resolvedAt 0x400000 (Ident.nm ("a".toList))
        (processExports c2e c4name 0x400000 3 c2reg
          [(Ident.nm ("a".toList), 0), (Ident.nm ("b".toList), 100)])
      = some (Except.ok (some 100)) :=
  claim_C2_same_lib_forward c2e c4name 0x400000 0 c2reg
    ("a".toList) ("b".toList) ("foo".toList) 0 100 []
    (by decide) (by decide) (by decide) (by decide) (by decide) (by decide) (by decide)

/-! ## C9: the address-table invariant -/

/-- Recording one export preserves the registry invariant: the freshly
stored value gets both address-keyed entries, and keys of the
address-keyed tables are never removed by an update. -/
theorem recordExport_inv (r r2 : Libimp) (libad : Nat) (imp : Ident) (ad : Nat)
    (hinv : regInv r) (h : recordExport r libad imp ad = some r2) : regInv r2 := by
  unfold recordExport at h
  cases htbl : alookup r.lib_imp2ad libad with
  | none => rw [htbl] at h; simp at h
  | some tbl =>
    rw [htbl] at h
    cases hrev : alookupLast r.name2off libad with
    | none => rw [hrev] at h; simp at h
    | some libname =>
      rw [hrev] at h
      simp only [Option.some_inj] at h
      subst h
      intro b tbl' i ad' hb hi
      by_cases hbl : b = libad
      · subst hbl
        rw [alookup_aset_self] at hb
        injection hb with hb'
        subst hb'
        rw [alookup_aset] at hi
        by_cases hii : i = imp
        · rw [if_pos hii] at hi
          injection hi with hi'
          subst hi'
          exact ⟨by simp [alookup_aset_self], by simp [alookup_aset_self]⟩
        · rw [if_neg hii] at hi
          have old := hinv b tbl i ad' htbl hi
          exact ⟨alookup_aset_isSome _ _ _ _ old.1, alookup_aset_isSome _ _ _ _ old.2⟩
      · rw [alookup_aset_ne _ _ _ _ hbl] at hb
        have old := hinv b tbl' i ad' hb hi
        exact ⟨alookup_aset_isSome _ _ _ _ old.1, alookup_aset_isSome _ _ _ _ old.2⟩

/-- The worklist loop preserves the registry invariant. -/
theorem processExports_inv (e : PEImg) (name : Str) (libad : Nat) :
    ∀ (fuel : Nat) (todo : List (Ident × Nat)) (r r' : Libimp),
      regInv r → processExports e name libad fuel r todo = some (Except.ok r') →
      regInv r' := by
  intro fuel
  induction fuel with
  | zero =>
    intro todo r r' hinv h
    cases todo with
    | nil =>
      simp [processExports] at h
      exact h ▸ hinv
    | cons hd tl => simp [processExports] at h
  | succ fuel ih =>
    intro todo r r' hinv h
    cases todo with
    | nil =>
      simp [processExports] at h
      exact h ▸ hinv
    | cons hd tl =>
      obtain ⟨imp, ad0⟩ := hd
      simp only [processExports] at h
      repeat' split at h
      all_goals first
        | exact absurd h (by simp)
        | exact ih _ _ _ hinv h
        | (rename_i hrec; exact ih _ _ _ (recordExport_inv _ _ _ _ _ hinv hrec) h)

/-- C9: export ingestion preserves the invariant that every address stored
in a per-library symbol table appears as a key of both `fad2cname` and
`fad2info`; when `add_export_lib` returns normally from a state satisfying
the invariant, the resulting registry satisfies it too. -/
theorem claim_C9_registry_invariant (r : Libimp) (e : PEImg) (name : Str) (fuel : Nat)
    (r' : Libimp) (hinv : regInv r)
    (h : add_export_lib r e name fuel = some (Except.ok r')) : regInv r' := by
  simp only [add_export_lib] at h
  cases hn : alookup r.name2off name with
  | some b =>
    rw [hn] at h
    simp only [Option.some_inj, Except.ok.injEq] at h
    exact h ▸ hinv
  | none =>
    rw [hn] at h
    refine processExports_inv e name e.imageBase fuel _ _ r' ?_ h
    intro b tbl i ad hb hi
    by_cases hbl : b = e.imageBase
    · subst hbl
      rw [alookup_aset_self] at hb
      injection hb with hb'
      subst hb'
      simp [alookup] at hi
    · rw [alookup_aset_ne _ _ _ _ hbl] at hb
      exact ⟨(hinv b tbl i ad hb hi).1, (hinv b tbl i ad hb hi).2⟩

/-- Witness for `claim_C9_registry_invariant`: a concrete ingestion from
the empty registry lands in a state satisfying the invariant. -/
theorem claim_C9_registry_invariant_witness : regInv c9res :=
  claim_C9_registry_invariant emptyLibimp c9e c9name 1 c9res
    (by intro b tbl i ad h1 _h2; simp [alookup, emptyLibimp] at h1)
    rfl

/-! ## C5: the non-aligned load path -/

/-- C5 (code bug): on the non-aligned path, the single zero-filled page is
allocated, but the section-copy loop then raises `NameError`: it iterates
with variable `section` while reading `s.data` / `s.addr`, and no `s` is
bound anywhere in `vm_load_pe` (lines 181-183; even the `log.debug` call
evaluates `len(s.data)` first).  So `load` never returns normally on this
path and no section content is ever copied — the claim's "after load
returns, the bytes at `rva2virt(section.addr)` equal that section's
content" is unsatisfiable. -/
theorem claim_C5_nonaligned_crash (vm : VM) (pe : PEFile) (align_s load_hdr : Bool)
    (h : pe.shlist.all (fun sec => sec.addr &&& 0xFFF == 0) = false) :
    (vm_load_pe vm pe align_s load_hdr).2 = Except.error PyErr.nameError
    ∧ ∃ mn sz, (vm_load_pe vm pe align_s load_hdr).1.pages
        = vm.pages ++ [(mn, List.replicate sz nulChar)] := by
  unfold vm_load_pe
  simp only [h, Bool.false_eq_true, if_false]
  constructor
  · simp
  · exact ⟨pe.imageBase + (naMinMax load_hdr (naAdjust pe.shlist)).1.getD 0,
      pe.imageBase + (naMinMax load_hdr (naAdjust pe.shlist)).2.getD 0
        - (pe.imageBase + (naMinMax load_hdr (naAdjust pe.shlist)).1.getD 0),
      by simp [addPage]⟩

/-- Witness for `claim_C5_nonaligned_crash`: a PE with one section at RVA
0x10 (not page-aligned) holding the bytes `"AB"`. -/
theorem claim_C5_nonaligned_crash_witness :
    (vm_load_pe ⟨[]⟩ ⟨0x400000, 0, [], [⟨0x10, 2, 2, 0, "AB".toList⟩]⟩ true true).2
        = Except.error PyErr.nameError
    ∧ ∃ mn sz, (vm_load_pe ⟨[]⟩ ⟨0x400000, 0, [], [⟨0x10, 2, 2, 0, "AB".toList⟩]⟩ true true).1.pages
        = ([] : List (Nat × Str)) ++ [(mn, List.replicate sz nulChar)] :=
  claim_C5_nonaligned_crash ⟨[]⟩ ⟨0x400000, 0, [], [⟨0x10, 2, 2, 0, "AB".toList⟩]⟩ true true
    (by decide)

/-! ## C7: the header-page size bound -/

/-- Mapping the (aligned) sections only appends pages. -/
theorem foldl_addPage_pages (ib : Nat) (secs : List PESection) :
    ∀ v : VM, ∃ tail,
      (secs.foldl (fun v sec => addPage v (ib + sec.addr) (padTo sec.data sec.size)) v).pages
        = v.pages ++ tail := by
  induction secs with
  | nil => intro v; exact ⟨[], by simp⟩
  | cons s rest ih =>
    intro v
    obtain ⟨tail, htail⟩ := ih (addPage v (ib + s.addr) (padTo s.data s.size))
    refine ⟨(ib + s.addr, padTo s.data s.size) :: tail, ?_⟩
    rw [List.foldl_cons, htail]
    simp [addPage]

/-- C7 (counterexample): a PE whose raw content is *empty* (shorter than
`max(0x200, SizeOfHeaders)`) gets a header page of size 0, below the
claimed bound `max(0x200, SizeOfHeaders) = 0x200`: the slice
`content[:hdr_len]` does not pad short content. -/
theorem claim_C7_counterexample :
    ((vm_load_pe ⟨[]⟩ ⟨0x400000, 0, [], [⟨0, 0, 0, 0, []⟩]⟩ false true).1.pages.headD
        (0, [])).2.length
      < max 0x200 (⟨0x400000, 0, [], [⟨0, 0, 0, 0, []⟩]⟩ : PEFile).sizeofheaders := by
  decide

/-- C7 (amended): on the aligned path with `loadHeader = true`, *provided
the raw content is at least `max(0x200, SizeOfHeaders)` bytes long* (any
non-truncated file), the header page mapped at `ImageBase` has size at
least `min(firstSectionAddress, 0x1000)` and at least
`max(0x200, SizeOfHeaders)`; for shorter content the page is the whole
content plus `max(0, min(firstSectionAddress, 0x1000) − max(0x200,
SizeOfHeaders))` NULs, which can undercut both bounds. -/
theorem claim_C7_header_bound (vm : VM) (pe : PEFile) (align_s : Bool)
    (hal : pe.shlist.all (fun sec => sec.addr &&& 0xFFF == 0) = true)
    (hne : pe.shlist.isEmpty = false)
    (hlen : max 0x200 pe.sizeofheaders ≤ pe.content.length) :
    ∃ rest, (vm_load_pe vm pe align_s true).1.pages
        = vm.pages ++ (pe.imageBase,
            headerBytes pe.content pe.sizeofheaders ((pe.shlist.headD dfltSection).addr)) :: rest
      ∧ min ((pe.shlist.headD dfltSection).addr) 0x1000
          ≤ (headerBytes pe.content pe.sizeofheaders ((pe.shlist.headD dfltSection).addr)).length
      ∧ max 0x200 pe.sizeofheaders
          ≤ (headerBytes pe.content pe.sizeofheaders ((pe.shlist.headD dfltSection).addr)).length
    := by
  have hLen : (headerBytes pe.content pe.sizeofheaders ((pe.shlist.headD dfltSection).addr)).length
      = max 0x200 pe.sizeofheaders
        + (min ((pe.shlist.headD dfltSection).addr) 0x1000 - max 0x200 pe.sizeofheaders) := by
    simp only [headerBytes, List.length_append, List.length_take, List.length_replicate]
    omega
  unfold vm_load_pe
  simp only [hal, if_true, hne, Bool.and_false, Bool.false_eq_true, if_false]
  obtain ⟨tail, htail⟩ := foldl_addPage_pages pe.imageBase
    (if align_s then alignSecs pe.shlist else pe.shlist)
    (addPage vm pe.imageBase
      (headerBytes pe.content pe.sizeofheaders ((pe.shlist.headD dfltSection).addr)))
  refine ⟨tail, ?_, ?_, ?_⟩
  · simpa [addPage] using htail
  · omega
  · omega

/-- Witness for `claim_C7_header_bound`: a PE with 0x200 bytes of content,
`SizeOfHeaders = 0`, one aligned section at RVA 0x1000. -/
theorem claim_C7_header_bound_witness :
    ∃ rest, (vm_load_pe ⟨[]⟩ ⟨0x400000, 0, List.replicate 0x200 'A',
          [⟨0x1000, 0x1000, 0x1000, 0, []⟩]⟩ false true).1.pages
        = ([] : List (Nat × Str)) ++ (0x400000,
            headerBytes (List.replicate 0x200 'A') 0
              (((⟨0x400000, 0, List.replicate 0x200 'A',
                  [⟨0x1000, 0x1000, 0x1000, 0, []⟩]⟩ : PEFile).shlist.headD dfltSection).addr))
            :: rest
      ∧ min (((⟨0x400000, 0, List.replicate 0x200 'A',
            [⟨0x1000, 0x1000, 0x1000, 0, []⟩]⟩ : PEFile).shlist.headD dfltSection).addr) 0x1000
          ≤ (headerBytes (List.replicate 0x200 'A') 0
              (((⟨0x400000, 0, List.replicate 0x200 'A',
                  [⟨0x1000, 0x1000, 0x1000, 0, []⟩]⟩ : PEFile).shlist.headD dfltSection).addr)).length
      ∧ max 0x200 (0 : Nat)
          ≤ (headerBytes (List.replicate 0x200 'A') 0
              (((⟨0x400000, 0, List.replicate 0x200 'A',
                  [⟨0x1000, 0x1000, 0x1000, 0, []⟩]⟩ : PEFile).shlist.headD dfltSection).addr)).length :=
  claim_C7_header_bound ⟨[]⟩ ⟨0x400000, 0, List.replicate 0x200 'A',
      [⟨0x1000, 0x1000, 0x1000, 0, []⟩]⟩ false
    (by decide) (by decide) (by decide)

/-! ## C6: import-block coalescing in `gen_new_lib` -/

theorem runLen_pos (a : Nat) (rest : List Nat) : 1 ≤ runLen (a :: rest) := by
  cases rest with
  | nil => simp [runLen]
  | cons b r =>
    simp only [runLen]
    split <;> omega

/-- `runLen` of a nonempty list is `k + 1` for some `k`. -/
theorem runLen_succ (a : Nat) (rest : List Nat) :
    ∃ k, runLen (a :: rest) = k + 1 :=
  ⟨runLen (a :: rest) - 1, by have := runLen_pos a rest; omega⟩

theorem isRun4_take_runLen : ∀ l : List Nat, IsRun4 (l.take (runLen l)) := by
  intro l
  induction l with
  | nil => simp [runLen, IsRun4]
  | cons a tail ih =>
    cases tail with
    | nil => simp [runLen, IsRun4]
    | cons b r =>
      by_cases hab : a + 4 = b
      · simp only [runLen, if_pos hab, List.take_succ_cons]
        obtain ⟨k, hk⟩ := runLen_succ b r
        rw [hk]
        rw [hk] at ih
        simp only [List.take_succ_cons] at ih ⊢
        exact List.chain'_cons.mpr ⟨hab, ih⟩
      · simp only [runLen, if_neg hab, List.take_succ_cons, List.take_zero, IsRun4]
        simp

/-- If anything remains after the leading run, the run's last element is
*not* 4 below the remainder's head: the runs are maximal. -/
theorem runLen_boundary : ∀ (l : List Nat) (c : Nat),
    (l.drop (runLen l)).head? = some c →
    ∃ x, (l.take (runLen l)).getLast? = some x ∧ x + 4 ≠ c := by
  intro l
  induction l with
  | nil => intro c hc; simp [runLen] at hc
  | cons a tail ih =>
    cases tail with
    | nil => intro c hc; simp [runLen] at hc
    | cons b r =>
      intro c hc
      by_cases hab : a + 4 = b
      · simp only [runLen, if_pos hab, List.drop_succ_cons] at hc
        simp only [runLen, if_pos hab, List.take_succ_cons]
        obtain ⟨x, hx, hxc⟩ := ih c hc
        refine ⟨x, ?_, hxc⟩
        obtain ⟨k, hk⟩ := runLen_succ b r
        rw [hk] at hx ⊢
        simp only [List.take_succ_cons] at hx ⊢
        rw [List.getLast?_cons_cons]
        exact hx
      · simp only [runLen, if_neg hab, List.drop_succ_cons, List.drop_zero,
          List.head?_cons, Option.some_inj] at hc
        subst hc
        simp only [runLen, if_neg hab, List.take_succ_cons, List.take_zero]
        exact ⟨a, by simp, hab⟩

/-- The blocks concatenate back to the input list. -/
theorem iatBlocksF_join : ∀ (fuel : Nat) (l : List Nat), l.length ≤ fuel →
    (iatBlocksF fuel l).flatten = l := by
  intro fuel
  induction fuel with
  | zero =>
    intro l h
    rw [List.length_eq_zero.mp (Nat.le_zero.mp h)]
    simp [iatBlocksF]
  | succ fuel ih =>
    intro l h
    cases l with
    | nil => simp [iatBlocksF]
    | cons a rest =>
      simp only [iatBlocksF, List.flatten_cons]
      rw [ih ((a :: rest).drop (runLen (a :: rest)))
        (by
          have h1 := runLen_pos a rest
          simp only [List.length_drop, List.length_cons]
          simp only [List.length_cons] at h
          omega)]
      exact List.take_append_drop _ _

/-- Every block is a nonempty maximal run of stride 4. -/
theorem iatBlocksF_blocks : ∀ (fuel : Nat) (l : List Nat), l.length ≤ fuel →
    ∀ b ∈ iatBlocksF fuel l, b ≠ [] ∧ IsRun4 b := by
  intro fuel
  induction fuel with
  | zero =>
    intro l h b hb
    rw [List.length_eq_zero.mp (Nat.le_zero.mp h)] at hb
    simp [iatBlocksF] at hb
  | succ fuel ih =>
    intro l h b hb
    cases l with
    | nil => simp [iatBlocksF] at hb
    | cons a rest =>
      simp only [iatBlocksF, List.mem_cons] at hb
      rcases hb with hb | hb
      · subst hb
        constructor
        · obtain ⟨k, hk⟩ := runLen_succ a rest
          rw [hk]
          simp [List.take_succ_cons]
        · exact isRun4_take_runLen (a :: rest)
      · refine ih ((a :: rest).drop (runLen (a :: rest)))
          (by
            have h1 := runLen_pos a rest
            simp only [List.length_drop, List.length_cons]
            simp only [List.length_cons] at h
            omega) b hb

/-- Adjacent blocks do not merge: the previous block's last address is
never exactly 4 below the next block's first. -/
theorem iatBlocksF_sep : ∀ (fuel : Nat) (l : List Nat), l.length ≤ fuel →
    (iatBlocksF fuel l).Chain'
      (fun b1 b2 => ∀ x ∈ b1.getLast?, ∀ y ∈ b2.head?, x + 4 ≠ y) := by
  intro fuel
  induction fuel with
  | zero =>
    intro l h
    rw [List.length_eq_zero.mp (Nat.le_zero.mp h)]
    simp [iatBlocksF]
  | succ fuel ih =>
    intro l h
    cases l with
    | nil => simp [iatBlocksF]
    | cons a rest =>
      simp only [iatBlocksF]
      have hdrop : ((a :: rest).drop (runLen (a :: rest))).length ≤ fuel := by
        have h1 := runLen_pos a rest
        simp only [List.length_drop, List.length_cons]
        simp only [List.length_cons] at h
        omega
      rw [List.chain'_cons']
      refine ⟨?_, ih _ hdrop⟩
      intro b2 hb2 x hx y hy
      cases hD : (a :: rest).drop (runLen (a :: rest)) with
      | nil =>
        rw [hD] at hb2
        cases fuel <;> simp [iatBlocksF] at hb2
      | cons d D' =>
        rw [hD] at hb2
        cases fuel with
        | zero =>
          simp only [List.length_cons] at hdrop
          rw [hD] at hdrop
          simp at hdrop
        | succ fuel' =>
          simp only [iatBlocksF, List.head?_cons, Option.mem_def, Option.some_inj] at hb2
          subst hb2
          obtain ⟨z, hz, hzc⟩ := runLen_boundary (a :: rest) d (by rw [hD]; rfl)
          rw [hz, Option.mem_def, Option.some_inj] at hx
          subst hx
          obtain ⟨k, hk⟩ := runLen_succ d D'
          rw [hk] at hy
          simp only [List.take_succ_cons, List.head?_cons, Option.mem_def,
            Option.some_inj] at hy
          subst hy
          exact hzc

/-- C6 (counterexample): the claim groups runs of addresses "exactly
pointerWidth (4 or 8) apart".  The code's run detection hard-codes
`all_ads[i] + 4 == all_ads[i+1]` regardless of the image's pointer width:
two slots 8 bytes apart — one run for a 64-bit image under the claim —
come out as two one-entry descriptors. -/
theorem claim_C6_counterexample :
    gen_new_lib c6r8 (fun a => some a) (fun _ => true)
        = [((c4name, 0x1000), [Ident.nm ("f1".toList)]),
           ((c4name, 0x1008), [Ident.nm ("f2".toList)])]
      ∧ iatRunsSpec 8 [0x1000, 0x1008] = [[0x1000, 0x1008]] := by
  constructor
  · decide
  · decide

/-- C6 (amended): the reconstruction groups patched slot addresses into
maximal runs of stride exactly `4` — the literal in the source — no matter
the image's pointer width.  Concretely, `{0x1000, 0x1004, 0x1008, 0x2000}`
yields one three-symbol descriptor with first thunk at 0x1000 (symbols
ordered by address) and one one-entry descriptor at 0x2000; in general the
blocks partition the sorted address list, each block is a nonempty
stride-4 run, and adjacent blocks cannot be merged. -/
theorem claim_C6_block_grouping :
    (gen_new_lib c6r4 (fun a => some a) (fun _ => true)
        = [((c4name, 0x1000),
            [Ident.nm ("f1".toList), Ident.nm ("f2".toList), Ident.nm ("f3".toList)]),
           ((c4name, 0x2000), [Ident.nm ("f4".toList)])])
    ∧ (∀ l : List Nat, (iatBlocks l).flatten = l)
    ∧ (∀ l : List Nat, ∀ b ∈ iatBlocks l, b ≠ [] ∧ IsRun4 b)
    ∧ (∀ l : List Nat, (iatBlocks l).Chain'
        (fun b1 b2 => ∀ x ∈ b1.getLast?, ∀ y ∈ b2.head?, x + 4 ≠ y)) := by
  refine ⟨by decide, ?_, ?_, ?_⟩
  · intro l; exact iatBlocksF_join l.length l le_rfl
  · intro l; exact iatBlocksF_blocks l.length l le_rfl
  · intro l; exact iatBlocksF_sep l.length l le_rfl

/-! ## C8/C10: `preload_pe` -/

theorem le_foldl_max_init (l : List Nat) : ∀ i : Nat, i ≤ l.foldl max i := by
  induction l with
  | nil => intro i; exact le_rfl
  | cons a t ih =>
    intro i
    exact le_trans (le_max_left i a) (ih (max i a))

theorem mem_le_foldl_max (l : List Nat) : ∀ (i x : Nat), x ∈ l → x ≤ l.foldl max i := by
  induction l with
  | nil => intro i x hx; simp at hx
  | cons a t ih =>
    intro i x hx
    rcases List.mem_cons.mp hx with h | h
    · subst h
      exact le_trans (le_max_right i x) (le_foldl_max_init t (max i x))
    · exact ih (max i a) x h

/-- A fresh base differs from every base already registered in
`name2off`. -/
theorem freshBase_ne (r : Libimp) (lib : Str) (b : Nat)
    (h : alookup r.name2off lib = some b) : freshBase r ≠ b := by
  have hmem : b ∈ r.name2off.map Prod.snd :=
    List.mem_map.mpr ⟨(lib, b), alookup_mem _ _ _ h, rfl⟩
  have hle := mem_le_foldl_max (r.name2off.map Prod.snd) 0 b hmem
  have : b < freshBase r := by
    unfold freshBase
    omega
  omega

/-- One `preload_pe` step: `dyn_funcs` gains the canonical name bound to
`stepVal`, and (when patching) the slot gets that value. -/
theorem preloadStep_shape (w : Nat) (p : Bool) (st : PreSt) (ent : (Str × Ident) × Nat) :
    preloadStep w p st ent
      = ⟨aset st.dyn (canon_libname_libfunc ent.1.1 ent.1.2) (stepVal st.reg ent),
         (preloadStep w p st ent).reg,
         if p then (fun x => if x = ent.2 then stepVal st.reg ent % 2 ^ w else st.mem x)
         else st.mem⟩ := by
  unfold preloadStep stepVal resolvedIn lib_get_add_base lib_get_add_func
  cases hb : alookup st.reg.name2off ent.1.1 with
  | none => simp [hb, alookup_aset_self, alookup]
  | some b =>
    simp only [hb]
    cases hf : alookup ((alookup st.reg.lib_imp2ad b).getD []) ent.1.2 with
    | none => simp [hf]
    | some v => simp [hf]

/-- Destructuring of `resolvedIn`. -/
theorem resolvedIn_eq_some (r : Libimp) (lib : Str) (f : Ident) (v : Nat) :
    resolvedIn r lib f = some v ↔
      ∃ b, alookup r.name2off lib = some b ∧
        alookup ((alookup r.lib_imp2ad b).getD []) f = some v := by
  unfold resolvedIn
  cases hb : alookup r.name2off lib with
  | none => simp
  | some b => simp

/-- A step on an already-resolved import leaves the registry unchanged. -/
theorem preloadStep_reg_found (w : Nat) (p : Bool) (st : PreSt) (ent : (Str × Ident) × Nat)
    (v : Nat) (h : resolvedIn st.reg ent.1.1 ent.1.2 = some v) :
    (preloadStep w p st ent).reg = st.reg := by
  obtain ⟨b, hb, hf⟩ := (resolvedIn_eq_some _ _ _ _).mp h
  unfold preloadStep lib_get_add_base lib_get_add_func
  simp only [hb, hf]

/-- After a step on an entry, that entry's import is resolved, to the value
the step recorded. -/
theorem resolvedIn_preloadStep_self (w : Nat) (p : Bool) (st : PreSt)
    (ent : (Str × Ident) × Nat) :
    resolvedIn (preloadStep w p st ent).reg ent.1.1 ent.1.2 = some (stepVal st.reg ent) := by
  unfold preloadStep stepVal resolvedIn lib_get_add_base lib_get_add_func
  cases hb : alookup st.reg.name2off ent.1.1 with
  | none =>
    simp only [hb]
    simp [alookup_aset_self, alookup]
  | some b =>
    simp only [hb]
    cases hf : alookup ((alookup st.reg.lib_imp2ad b).getD []) ent.1.2 with
    | none => simp [hf, hb, alookup_aset_self]
    | some v => simp [hf, hb]

/-- Resolved imports stay resolved (to the same value) across a step:
bindings are never overwritten, and fresh bases never collide with a base
reachable through `name2off`. -/
theorem resolvedIn_preloadStep_mono (w : Nat) (p : Bool) (st : PreSt)
    (ent : (Str × Ident) × Nat) (lib : Str) (f : Ident) (v : Nat)
    (h : resolvedIn st.reg lib f = some v) :
    resolvedIn (preloadStep w p st ent).reg lib f = some v := by
  obtain ⟨b, hbl, hlf⟩ := (resolvedIn_eq_some _ _ _ _).mp h
  unfold preloadStep lib_get_add_base lib_get_add_func
  cases hb : alookup st.reg.name2off ent.1.1 with
  | none =>
    have hne : lib ≠ ent.1.1 := by
      intro hEq; rw [hEq, hb] at hbl; exact Option.noConfusion hbl
    have hfb : freshBase st.reg ≠ b := freshBase_ne st.reg lib b hbl
    simp only [hb]
    simp only [alookup_aset_self, Option.getD_some, alookup]
    unfold resolvedIn
    simp only [alookup_aset_ne _ _ _ _ hne, hbl]
    rw [alookup_aset_ne _ _ _ _ (Ne.symm hfb), alookup_aset_ne _ _ _ _ (Ne.symm hfb)]
    exact hlf
  | some b0 =>
    simp only [hb]
    cases hf : alookup ((alookup st.reg.lib_imp2ad b0).getD []) ent.1.2 with
    | none =>
      simp only [hf]
      unfold resolvedIn
      simp only [hbl]
      by_cases hbb : b = b0
      · subst hbb
        rw [alookup_aset_self, Option.getD_some]
        have hff : f ≠ ent.1.2 := by
          intro hEq; rw [hEq] at hlf; rw [hlf] at hf; exact Option.noConfusion hf
        rw [alookup_aset_ne _ _ _ _ hff]
        exact hlf
      · rw [alookup_aset_ne _ _ _ _ hbb]
        exact hlf
    | some v2 =>
      simp only [hf]
      unfold resolvedIn
      simp only [hbl]
      exact hlf

theorem preload_run_cons (w : Nat) (p : Bool) (st : PreSt) (ent : (Str × Ident) × Nat)
    (L : List ((Str × Ident) × Nat)) :
    preload_run w p st (ent :: L) = preload_run w p (preloadStep w p st ent) L := rfl

theorem pureD_cons (r : Libimp) (d : List (Str × Nat)) (ent : (Str × Ident) × Nat)
    (L : List ((Str × Ident) × Nat)) :
    pureD r d (ent :: L)
      = pureD r (aset d (canon_libname_libfunc ent.1.1 ent.1.2) (stepVal r ent)) L := rfl

theorem pureM_cons (w : Nat) (p : Bool) (r : Libimp) (m : Mem) (ent : (Str × Ident) × Nat)
    (L : List ((Str × Ident) × Nat)) :
    pureM w p r m (ent :: L)
      = pureM w p r
          (if p then (fun x => if x = ent.2 then stepVal r ent % 2 ^ w else m x) else m) L := rfl

theorem resolvedIn_preload_run_mono (w : Nat) (p : Bool) :
    ∀ (L : List ((Str × Ident) × Nat)) (st : PreSt) (lib : Str) (f : Ident) (v : Nat),
      resolvedIn st.reg lib f = some v →
      resolvedIn (preload_run w p st L).reg lib f = some v := by
  intro L
  induction L with
  | nil => intro st lib f v h; exact h
  | cons ent L ih =>
    intro st lib f v h
    rw [preload_run_cons]
    exact ih (preloadStep w p st ent) lib f v (resolvedIn_preloadStep_mono w p st ent lib f v h)

/-- Every entry of the worklist is resolved in the final registry. -/
theorem preload_run_covers (w : Nat) (p : Bool) :
    ∀ (L : List ((Str × Ident) × Nat)) (st : PreSt) (ent : (Str × Ident) × Nat),
      ent ∈ L → (resolvedIn (preload_run w p st L).reg ent.1.1 ent.1.2).isSome := by
  intro L
  induction L with
  | nil => intro st ent h; simp at h
  | cons e0 L ih =>
    intro st ent h
    rcases List.mem_cons.mp h with h | h
    · subst h
      rw [preload_run_cons]
      rw [resolvedIn_preload_run_mono w p L (preloadStep w p st ent) ent.1.1 ent.1.2
        (stepVal st.reg ent) (resolvedIn_preloadStep_self w p st ent)]
      rfl
    · rw [preload_run_cons]
      exact ih (preloadStep w p st e0) ent h

/-- When every worklist entry is already resolved, a run leaves the
registry untouched and computes `dyn_funcs` and the patches purely from
it. -/
theorem preload_run_stable (w : Nat) (p : Bool) :
    ∀ (L : List ((Str × Ident) × Nat)) (st : PreSt),
      (∀ ent ∈ L, (resolvedIn st.reg ent.1.1 ent.1.2).isSome) →
      preload_run w p st L = ⟨pureD st.reg st.dyn L, st.reg, pureM w p st.reg st.mem L⟩ := by
  intro L
  induction L with
  | nil => intro st _; rfl
  | cons ent L ih =>
    intro st h
    obtain ⟨v, hv⟩ := Option.isSome_iff_exists.mp (h ent (List.mem_cons_self ent L))
    have hreg : (preloadStep w p st ent).reg = st.reg := preloadStep_reg_found w p st ent v hv
    rw [preload_run_cons,
      ih (preloadStep w p st ent) (by intro e he; rw [hreg]; exact h e (List.mem_cons_of_mem _ he)),
      pureD_cons, pureM_cons, hreg]
    rw [congrArg PreSt.dyn (preloadStep_shape w p st ent),
      congrArg PreSt.mem (preloadStep_shape w p st ent)]

/-- `dyn_funcs` of a run equals the pure computation against the *final*
registry: the value an entry records never changes afterwards. -/
theorem preload_run_dyn (w : Nat) (p : Bool) :
    ∀ (L : List ((Str × Ident) × Nat)) (st : PreSt),
      (preload_run w p st L).dyn = pureD (preload_run w p st L).reg st.dyn L := by
  intro L
  induction L with
  | nil => intro st; rfl
  | cons ent L ih =>
    intro st
    have hval : stepVal ((preload_run w p (preloadStep w p st ent) L).reg) ent
        = stepVal st.reg ent := by
      show (resolvedIn ((preload_run w p (preloadStep w p st ent) L).reg) ent.1.1
          ent.1.2).getD ent.2 = stepVal st.reg ent
      rw [resolvedIn_preload_run_mono w p L (preloadStep w p st ent) ent.1.1 ent.1.2
        (stepVal st.reg ent) (resolvedIn_preloadStep_self w p st ent)]
      simp
    rw [preload_run_cons, pureD_cons, ih (preloadStep w p st ent), hval,
      congrArg PreSt.dyn (preloadStep_shape w p st ent)]

/-- The memory after a run equals the pure patch sequence computed against
the final registry. -/
theorem preload_run_mem (w : Nat) (p : Bool) :
    ∀ (L : List ((Str × Ident) × Nat)) (st : PreSt),
      (preload_run w p st L).mem = pureM w p (preload_run w p st L).reg st.mem L := by
  intro L
  induction L with
  | nil => intro st; rfl
  | cons ent L ih =>
    intro st
    have hval : stepVal ((preload_run w p (preloadStep w p st ent) L).reg) ent
        = stepVal st.reg ent := by
      show (resolvedIn ((preload_run w p (preloadStep w p st ent) L).reg) ent.1.1
          ent.1.2).getD ent.2 = stepVal st.reg ent
      rw [resolvedIn_preload_run_mono w p L (preloadStep w p st ent) ent.1.1 ent.1.2
        (stepVal st.reg ent) (resolvedIn_preloadStep_self w p st ent)]
      simp
    rw [preload_run_cons, pureM_cons, ih (preloadStep w p st ent), hval,
      congrArg PreSt.mem (preloadStep_shape w p st ent)]

theorem find_append {α : Type} (p : α → Bool) :
    ∀ l1 l2 : List α, (l1 ++ l2).find? p
      = match l1.find? p with
        | some a => some a
        | none => l2.find? p := by
  intro l1
  induction l1 with
  | nil => intro l2; rfl
  | cons a t ih =>
    intro l2
    by_cases hp : p a
    · simp [List.find?, hp]
    · simp [List.find?, hp, ih]

theorem pureM_false (w : Nat) (r : Libimp) :
    ∀ (L : List ((Str × Ident) × Nat)) (m : Mem), pureM w false r m L = m := by
  intro L
  induction L with
  | nil => intro m; rfl
  | cons ent L ih => intro m; exact ih m

/-- The value a patched slot holds after `pureM` is determined by the
*last* entry writing that slot. -/
theorem pureM_char (w : Nat) (r : Libimp) :
    ∀ (L : List ((Str × Ident) × Nat)) (m : Mem) (x : Nat),
      pureM w true r m L x =
        match L.reverse.find? (fun ent => decide (ent.2 = x)) with
        | some ent => stepVal r ent % 2 ^ w
        | none => m x := by
  intro L
  induction L with
  | nil => intro m x; rfl
  | cons ent L ih =>
    intro m x
    rw [pureM_cons, if_pos rfl, ih]
    rw [List.reverse_cons, find_append]
    cases hfind : L.reverse.find? (fun e => decide (e.2 = x)) with
    | some e0 => rfl
    | none =>
      by_cases hx : ent.2 = x
      · have hx2 : x = ent.2 := hx.symm
        show (if x = ent.2 then stepVal r ent % 2 ^ w else m x)
          = match [ent].find? (fun e => decide (e.2 = x)) with
            | some e => stepVal r e % 2 ^ w
            | none => m x
        rw [if_pos hx2]
        rw [show [ent].find? (fun e => decide (e.2 = x)) = some ent from by
          simp [List.find?, hx]]
      · have hx2 : ¬ (x = ent.2) := fun hh => hx hh.symm
        show (if x = ent.2 then stepVal r ent % 2 ^ w else m x)
          = match [ent].find? (fun e => decide (e.2 = x)) with
            | some e => stepVal r e % 2 ^ w
            | none => m x
        rw [if_neg hx2]
        rw [show [ent].find? (fun e => decide (e.2 = x)) = none from by
          simp [List.find?, hx]]

/-- Applying the same pure patch sequence twice is the same as applying it
once. -/
theorem pureM_idem (w : Nat) (r : Libimp) (p : Bool) (L : List ((Str × Ident) × Nat))
    (m : Mem) : pureM w p r (pureM w p r m L) L = pureM w p r m L := by
  cases p with
  | false => rw [pureM_false, pureM_false]
  | true =>
    funext x
    rw [pureM_char, pureM_char]
    cases hf : L.reverse.find? (fun e => decide (e.2 = x)) with
    | some e0 => rfl
    | none => rfl

/-- C8: running `preload_pe` a second time on the same image, against the
registry and address space the first run produced, returns the identical
`dyn_funcs` mapping and overwrites every thunk slot with the value it
already holds, leaving the memory unchanged.  (The operation is total in
this model: the spec-modelled registry helpers raise nothing.) -/
theorem claim_C8_preload_idempotent (vm : Mem) (e : ImpPE) (r : Libimp) :
    (preload_pe (preload_pe vm e r true).mem e (preload_pe vm e r true).reg true).dyn
        = (preload_pe vm e r true).dyn
    ∧ (preload_pe (preload_pe vm e r true).mem e (preload_pe vm e r true).reg true).mem
        = (preload_pe vm e r true).mem := by
  unfold preload_pe
  have hstable := preload_run_stable e.wsize true (get_import_address_pe e)
      ⟨[], (preload_run e.wsize true ⟨[], r, vm⟩ (get_import_address_pe e)).reg,
       (preload_run e.wsize true ⟨[], r, vm⟩ (get_import_address_pe e)).mem⟩
      (fun ent h => preload_run_covers e.wsize true (get_import_address_pe e) ⟨[], r, vm⟩ ent h)
  constructor
  · rw [congrArg PreSt.dyn hstable]
    rw [preload_run_dyn e.wsize true (get_import_address_pe e) ⟨[], r, vm⟩]
  · rw [congrArg PreSt.mem hstable]
    rw [preload_run_mem e.wsize true (get_import_address_pe e) ⟨[], r, vm⟩]
    exact pureM_idem e.wsize _ true (get_import_address_pe e) vm

theorem preload_run_nopatch_mem (w : Nat) :
    ∀ (L : List ((Str × Ident) × Nat)) (st : PreSt),
      (preload_run w false st L).mem = st.mem := by
  intro L
  induction L with
  | nil => intro st; rfl
  | cons ent L ih =>
    intro st
    rw [preload_run_cons, ih]
    rfl

theorem preload_run_flag_indep (w : Nat) :
    ∀ (L : List ((Str × Ident) × Nat)) (d : List (Str × Nat)) (r : Libimp)
      (m m' : Mem) (p p' : Bool),
      (preload_run w p ⟨d, r, m⟩ L).dyn = (preload_run w p' ⟨d, r, m'⟩ L).dyn
      ∧ (preload_run w p ⟨d, r, m⟩ L).reg = (preload_run w p' ⟨d, r, m'⟩ L).reg := by
  intro L
  induction L with
  | nil => intro d r m m' p p'; exact ⟨rfl, rfl⟩
  | cons ent L ih =>
    intro d r m m' p p'
    rw [preload_run_cons, preload_run_cons]
    exact ih (preloadStep w p ⟨d, r, m⟩ ent).dyn (preloadStep w p ⟨d, r, m⟩ ent).reg
      (preloadStep w p ⟨d, r, m⟩ ent).mem (preloadStep w p' ⟨d, r, m'⟩ ent).mem p p'

/-- C10: `preload_pe` with `patch_vm_imp = False` writes nothing to the
address space (the memory function is returned unchanged) and produces the
same `canonicalName → resolvedAddress` mapping that the patching run
produces. -/
theorem claim_C10_nopatch_frame (vm : Mem) (e : ImpPE) (r : Libimp) :
    (preload_pe vm e r false).mem = vm
    ∧ (preload_pe vm e r false).dyn = (preload_pe vm e r true).dyn := by
  unfold preload_pe
  exact ⟨preload_run_nopatch_mem e.wsize (get_import_address_pe e) ⟨[], r, vm⟩,
    (preload_run_flag_indep e.wsize (get_import_address_pe e) [] r vm vm false true).1⟩
